import Mathlib

/-!
Shallow embedding of two govmomi CLI subcommands:
  * `disk.ls`   (src/cli/disk/ls.go, `ls.Run` and `lsResult.Write`)
  * `host.account.remove` (account/remove.go, `remove.Run`)

The remote "manager" collaborators are modelled as records of pure
`Except`-valued operations (one value per call site, matching the fact that
each command performs each remote call at most once per id).  `Run` is
instrumented with an explicit trace of the remote calls it performs, so that
"invoked exactly once" properties are statable.
-/

namespace types

/-- Embedding of `vim25/types.ID`: a string identifier. -/
structure ID where
  Id : String
deriving DecidableEq

/-- Embedding of `vim25/types.VslmTagEntry`: a category/tag name pair. -/
structure VslmTagEntry where
  ParentCategoryName : String
  TagName : String
deriving DecidableEq

/-- Embedding of `vim25/types.BaseConfigInfoDiskFileBackingInfo` (the concrete
struct the type assertion in `lsResult.Write` tests for). -/
structure BaseConfigInfoDiskFileBackingInfo where
  FilePath : String
deriving DecidableEq

/-- Embedding of the `BaseConfigInfoBackingInfo` interface value stored in
`Config.Backing`: either the disk-file backing struct or some other backing. -/
inductive BaseConfigInfoBackingInfo where
  | diskFile (file : BaseConfigInfoDiskFileBackingInfo)
  | otherBacking
deriving DecidableEq

/-- Embedding of `vim25/types.BaseConfigInfo` (the fields this code reads:
id, name, creation time, backing; `Backing` is an interface and may be nil,
hence `Option`). Time is abstracted to a counter. -/
structure BaseConfigInfo where
  Id : ID
  Name : String
  CreateTime : Nat
  Backing : Option BaseConfigInfoBackingInfo
deriving DecidableEq

/-- Embedding of `vim25/types.VStorageObjectConfigInfo`, which embeds
`BaseConfigInfo` and adds the capacity. -/
structure VStorageObjectConfigInfo extends BaseConfigInfo where
  CapacityInMB : Int
deriving DecidableEq

/-- Embedding of `vim25/types.VStorageObject` (the `Config` field). -/
structure VStorageObject where
  Config : VStorageObjectConfigInfo
deriving DecidableEq

end types

/-- Go error values as the command distinguishes them: a typed NotFound fault
(`fault.Is(err, &types.NotFound{})`) versus everything else.  Each carries its
rendered message (for `%s` formatting). -/
inductive GoError where
  | notFound (msg : String)
  | other (msg : String)
deriving DecidableEq

/-- Rendered message of an error, as `%s` would print it. -/
def GoError.message : GoError → String
  | GoError.notFound m => m
  | GoError.other m => m

/-- Embedding of `fault.Is(err, &types.NotFound{})`. -/
def GoError.isNotFound : GoError → Bool
  | GoError.notFound _ => true
  | GoError.other _ => false

/-- Boolean success test on an `Except` value. -/
def exceptOk {α : Type} : Except GoError α → Bool
  | Except.ok _ => true
  | Except.error _ => false

/-- Embedding of `cli/disk.VStorageObject`: the vim type plus attached tags
(`Tags` is nil, i.e. `[]`, unless `-T` fills it in). -/
structure VStorageObject extends types.VStorageObject where
  Tags : List types.VslmTagEntry
deriving DecidableEq

/-- The vslm manager collaborator of `disk.ls`: one `Except` value per
operation (per argument for the keyed operations), standing for the result of
the single remote call the command would make. -/
structure Manager where
  ReconcileDatastoreInventory : Except GoError Unit
  ListAttachedObjects : String → String → Except GoError (List types.ID)
  Retrieve : String → Except GoError types.VStorageObject
  ListAttachedTags : String → Except GoError (List types.VslmTagEntry)
  List : Except GoError (List types.ID)

/-- A remote call performed by `disk.ls.Run`, recorded in the trace. -/
inductive Call where
  | reconcile
  | list
  | listAttachedObjects (category tag : String)
  | retrieve (id : String)
  | listAttachedTags (id : String)
deriving DecidableEq

/-- True on the two discovery calls (`List` / `ListAttachedObjects`). -/
def Call.isDiscovery : Call → Bool
  | Call.list => true
  | Call.listAttachedObjects _ _ => true
  | _ => false

/-- True on the reconcile call. -/
def Call.isReconcile : Call → Bool
  | Call.reconcile => true
  | _ => false

/-- True on a `ListAttachedTags` call. -/
def Call.isTagLookup : Call → Bool
  | Call.listAttachedTags _ => true
  | _ => false

/-- True on a `Retrieve` call whose retrieval succeeds under manager `m`. -/
def Call.isRetrieveOk (m : Manager) : Call → Bool
  | Call.retrieve id => exceptOk (m.Retrieve id)
  | _ => false

/-- The flag fields of the `ls` command struct (`-a -l -L -R -c -t -T`). -/
structure LsFlags where
  all : Bool
  long : Bool
  path : Bool
  r : Bool
  category : String
  tag : String
  tags : Bool
deriving DecidableEq

/-- The sentinel name given to placeholder entries for missing disks. -/
def sentinelName : String :=
  "not found: use \x27disk.ls -R\x27 to reconcile datastore inventory"

/-- The placeholder `VStorageObject` built for a not-found id when `-a` is
set: only `Config.Id` and `Config.Name` are set, everything else is the Go
zero value. -/
def placeholderObj (id : String) : VStorageObject :=
  { Config :=
      { Id := { Id := id }
        Name := sentinelName
        CreateTime := 0
        Backing := none
        CapacityInMB := 0 }
    Tags := [] }

/-- Embedding of `fmt.Errorf("retrieve %q: %s", id, err)`: a plain (non-fault)
error whose message quotes the offending id. -/
def retrieveErr (id : String) (e : GoError) : GoError :=
  GoError.other ("retrieve \"" ++ id ++ "\": " ++ e.message)

/-- The retrieval loop of `ls.Run` over the iteration ids, returning the trace
of remote calls made and either the accumulated objects or the first fatal
error.  `filterNotFound` is true exactly on the discovery path. -/
def processIds (m : Manager) (cmd : LsFlags) (filterNotFound : Bool) :
    List String → List Call × Except GoError (List VStorageObject)
  | [] => ([], Except.ok [])
  | id :: rest =>
    match m.Retrieve id with
    | Except.error e =>
      if filterNotFound && e.isNotFound then
        let r := processIds m cmd filterNotFound rest
        (Call.retrieve id :: r.1,
          if cmd.all then
            Except.map (fun objs => placeholderObj id :: objs) r.2
          else r.2)
      else
        ([Call.retrieve id], Except.error (retrieveErr id e))
    | Except.ok o =>
      if cmd.tags then
        match m.ListAttachedTags id with
        | Except.error e =>
          ([Call.retrieve id, Call.listAttachedTags id], Except.error e)
        | Except.ok ts =>
          let r := processIds m cmd filterNotFound rest
          (Call.retrieve id :: Call.listAttachedTags id :: r.1,
            Except.map (fun objs => { toVStorageObject := o, Tags := ts } :: objs) r.2)
      else
        let r := processIds m cmd filterNotFound rest
        (Call.retrieve id :: r.1,
          Except.map (fun objs => { toVStorageObject := o, Tags := [] } :: objs) r.2)

/-- The discovery call made when no ids are given: unfiltered `List` when no
category is supplied, else `ListAttachedObjects(category, tag)`. -/
def discover (m : Manager) (cmd : LsFlags) :
    Call × Except GoError (List types.ID) :=
  if cmd.category = "" then
    (Call.list, m.List)
  else
    (Call.listAttachedObjects cmd.category cmd.tag,
      m.ListAttachedObjects cmd.category cmd.tag)

/-- `ls.Run` after the reconcile step: discovery (when no ids were given)
followed by the retrieval loop. -/
def lsRunBody (m : Manager) (cmd : LsFlags) (args : List String) :
    List Call × Except GoError (List VStorageObject) :=
  if args.isEmpty then
    match (discover m cmd).2 with
    | Except.error e => ([(discover m cmd).1], Except.error e)
    | Except.ok oids =>
      let r := processIds m cmd true (oids.map types.ID.Id)
      ((discover m cmd).1 :: r.1, r.2)
  else
    processIds m cmd false args

/-- `ls.Run` given a successfully acquired manager: the optional reconcile
step, then discovery and retrieval.  Returns the call trace and either the
final object list (handed to `WriteResult`) or the error `Run` returns. -/
def lsRun (m : Manager) (cmd : LsFlags) (args : List String) :
    List Call × Except GoError (List VStorageObject) :=
  if cmd.r then
    match m.ReconcileDatastoreInventory with
    | Except.error e => ([Call.reconcile], Except.error e)
    | Except.ok _ =>
      let r := lsRunBody m cmd args
      (Call.reconcile :: r.1, r.2)
  else
    lsRunBody m cmd args

/-- Whole `ls.Run` including manager acquisition (`NewManagerFromFlag`):
acquisition failure returns that error before any remote call. -/
def lsRunFull (acq : Except GoError Manager) (cmd : LsFlags)
    (args : List String) : List Call × Except GoError (List VStorageObject) :=
  match acq with
  | Except.error e => ([], Except.error e)
  | Except.ok m => lsRun m cmd args

/-- The name column printed by `lsResult.Write` for one object: the backing
file path when `-L` is set and the backing type assertion succeeds, the
configured name otherwise. -/
def lsDisplayName (cmd : LsFlags) (o : VStorageObject) : String :=
  if cmd.path then
    match o.Config.Backing with
    | some (types.BaseConfigInfoBackingInfo.diskFile file) => file.FilePath
    | _ => o.Config.Name
  else
    o.Config.Name

/-- Whether the iteration over id keeps an entry in the result: retrieved ok,
or (discovery path only) not found with `-a` set. -/
def keeps (m : Manager) (cmd : LsFlags) (filterNotFound : Bool)
    (id : String) : Bool :=
  match m.Retrieve id with
  | Except.ok _ => true
  | Except.error e => filterNotFound && e.isNotFound && cmd.all

/-- The result entry a kept id contributes: the retrieved object (with its
tags when `-T` is set), or the placeholder for a not-found id. -/
def objOf (m : Manager) (cmd : LsFlags) (id : String) : VStorageObject :=
  match m.Retrieve id with
  | Except.ok o =>
    { toVStorageObject := o
      Tags :=
        if cmd.tags then
          match m.ListAttachedTags id with
          | Except.ok ts => ts
          | Except.error _ => []
        else [] }
  | Except.error _ => placeholderObj id

/-- Every id in the list retrieves successfully, and (when `-T` is set) its
tag lookup succeeds too: the loop runs past all of them without aborting. -/
def okThrough (m : Manager) (cmd : LsFlags) (ids : List String) : Prop :=
  ∀ id ∈ ids, (∃ o, m.Retrieve id = Except.ok o) ∧
    (cmd.tags = true → ∃ ts, m.ListAttachedTags id = Except.ok ts)

/-- The host account manager collaborator of `host.account.remove`. -/
structure HostAccountManager where
  Remove : String → Except GoError Unit

/-- A remote call performed by `remove.Run`. -/
inductive AccountCall where
  | remove (id : String)
deriving DecidableEq

/-- `remove.Run`: acquire the host account manager, then issue the single
`Remove` call with the bound account id and return its result unchanged. -/
def removeRun (acq : Except GoError HostAccountManager) (id : String) :
    List AccountCall × Except GoError Unit :=
  match acq with
  | Except.error e => ([], Except.error e)
  | Except.ok m => ([AccountCall.remove id], m.Remove id)

/-! ### Case equations for the retrieval loop -/

theorem processIds_nil (m : Manager) (cmd : LsFlags) (f : Bool) :
    processIds m cmd f [] = ([], Except.ok []) := rfl

theorem processIds_cons_nf_all (m : Manager) (cmd : LsFlags) (id : String)
    (rest : List String) (e : GoError) (h : m.Retrieve id = Except.error e)
    (hnf : e.isNotFound = true) (hall : cmd.all = true) :
    processIds m cmd true (id :: rest) =
      (Call.retrieve id :: (processIds m cmd true rest).1,
        Except.map (fun objs => placeholderObj id :: objs)
          (processIds m cmd true rest).2) := by
  simp [processIds, h, hnf, hall]

theorem processIds_cons_nf_noall (m : Manager) (cmd : LsFlags) (id : String)
    (rest : List String) (e : GoError) (h : m.Retrieve id = Except.error e)
    (hnf : e.isNotFound = true) (hall : cmd.all = false) :
    processIds m cmd true (id :: rest) =
      (Call.retrieve id :: (processIds m cmd true rest).1,
        (processIds m cmd true rest).2) := by
  simp [processIds, h, hnf, hall]

theorem processIds_cons_fatal (m : Manager) (cmd : LsFlags) (f : Bool)
    (id : String) (rest : List String) (e : GoError)
    (h : m.Retrieve id = Except.error e) (hcond : (f && e.isNotFound) = false) :
    processIds m cmd f (id :: rest) =
      ([Call.retrieve id], Except.error (retrieveErr id e)) := by
  simp [processIds, h, hcond]

theorem processIds_cons_tags_err (m : Manager) (cmd : LsFlags) (f : Bool)
    (id : String) (rest : List String) (o : types.VStorageObject) (e : GoError)
    (h : m.Retrieve id = Except.ok o) (ht : cmd.tags = true)
    (he : m.ListAttachedTags id = Except.error e) :
    processIds m cmd f (id :: rest) =
      ([Call.retrieve id, Call.listAttachedTags id], Except.error e) := by
  simp [processIds, h, ht, he]

theorem processIds_cons_tags_ok (m : Manager) (cmd : LsFlags) (f : Bool)
    (id : String) (rest : List String) (o : types.VStorageObject)
    (ts : List types.VslmTagEntry)
    (h : m.Retrieve id = Except.ok o) (ht : cmd.tags = true)
    (hts : m.ListAttachedTags id = Except.ok ts) :
    processIds m cmd f (id :: rest) =
      (Call.retrieve id :: Call.listAttachedTags id ::
          (processIds m cmd f rest).1,
        Except.map (fun objs => { toVStorageObject := o, Tags := ts } :: objs)
          (processIds m cmd f rest).2) := by
  simp [processIds, h, ht, hts]

theorem processIds_cons_notags (m : Manager) (cmd : LsFlags) (f : Bool)
    (id : String) (rest : List String) (o : types.VStorageObject)
    (h : m.Retrieve id = Except.ok o) (ht : cmd.tags = false) :
    processIds m cmd f (id :: rest) =
      (Call.retrieve id :: (processIds m cmd f rest).1,
        Except.map (fun objs => { toVStorageObject := o, Tags := [] } :: objs)
          (processIds m cmd f rest).2) := by
  simp [processIds, h, ht]

/-! ### Support lemmas -/

theorem exceptMap_eq_ok {α β : Type} (g : α → β) (x : Except GoError α)
    (b : β) : Except.map g x = Except.ok b ↔ ∃ a, x = Except.ok a ∧ g a = b := by
  cases x <;> simp [Except.map]

theorem exceptMap_err {α β : Type} (g : α → β) (e : GoError) :
    Except.map g (Except.error e : Except GoError α) = Except.error e := rfl

/-- A successful retrieval loop yields exactly the kept ids, in order, each
mapped to its result entry. -/
theorem processIds_ok_eq (m : Manager) (cmd : LsFlags) (f : Bool) :
    ∀ ids objs, (processIds m cmd f ids).2 = Except.ok objs →
      objs = (ids.filter (keeps m cmd f)).map (objOf m cmd) := by
  intro ids
  induction ids with
  | nil =>
    intro objs h
    simp [processIds_nil] at h
    simp [← h]
  | cons id rest ih =>
    intro objs h
    cases hr : m.Retrieve id with
    | error e =>
      by_cases hcond : (f && e.isNotFound) = true
      · obtain ⟨hf, hnf⟩ := Bool.and_eq_true_iff.mp hcond
        subst hf
        cases hall : cmd.all with
        | true =>
          rw [processIds_cons_nf_all m cmd id rest e hr hnf hall] at h
          simp only at h
          obtain ⟨tl, htl, hcons⟩ := (exceptMap_eq_ok _ _ _).mp h
          rw [← hcons, ih tl htl]
          simp [List.filter_cons, keeps, hr, hnf, hall, objOf]
        | false =>
          rw [processIds_cons_nf_noall m cmd id rest e hr hnf hall] at h
          simp only at h
          rw [ih objs h]
          simp [List.filter_cons, keeps, hr, hnf, hall]
      · rw [processIds_cons_fatal m cmd f id rest e hr
          (Bool.not_eq_true _ ▸ hcond : (f && e.isNotFound) = false)] at h
        simp at h
    | ok o =>
      cases ht : cmd.tags with
      | true =>
        cases hts : m.ListAttachedTags id with
        | error e =>
          rw [processIds_cons_tags_err m cmd f id rest o e hr ht hts] at h
          simp at h
        | ok ts =>
          rw [processIds_cons_tags_ok m cmd f id rest o ts hr ht hts] at h
          simp only at h
          obtain ⟨tl, htl, hcons⟩ := (exceptMap_eq_ok _ _ _).mp h
          rw [← hcons, ih tl htl]
          simp [List.filter_cons, keeps, hr, objOf, ht, hts]
      | false =>
        rw [processIds_cons_notags m cmd f id rest o hr ht] at h
        simp only at h
        obtain ⟨tl, htl, hcons⟩ := (exceptMap_eq_ok _ _ _).mp h
        rw [← hcons, ih tl htl]
        simp [List.filter_cons, keeps, hr, objOf, ht]

/-- Every call the retrieval loop makes is a `Retrieve` or a
`ListAttachedTags`: the loop performs no discovery and no reconcile. -/
theorem processIds_trace_shape (m : Manager) (cmd : LsFlags) (f : Bool) :
    ∀ ids, ∀ c ∈ (processIds m cmd f ids).1,
      (∃ id, c = Call.retrieve id) ∨ (∃ id, c = Call.listAttachedTags id) := by
  intro ids
  induction ids with
  | nil => intro c hc; simp [processIds_nil] at hc
  | cons id rest ih =>
    intro c hc
    cases hr : m.Retrieve id with
    | error e =>
      by_cases hcond : (f && e.isNotFound) = true
      · obtain ⟨hf, hnf⟩ := Bool.and_eq_true_iff.mp hcond
        subst hf
        cases hall : cmd.all with
        | true =>
          rw [processIds_cons_nf_all m cmd id rest e hr hnf hall] at hc
          simp only [List.mem_cons] at hc
          rcases hc with hc | hc
          · exact Or.inl ⟨id, hc⟩
          · exact ih c hc
        | false =>
          rw [processIds_cons_nf_noall m cmd id rest e hr hnf hall] at hc
          simp only [List.mem_cons] at hc
          rcases hc with hc | hc
          · exact Or.inl ⟨id, hc⟩
          · exact ih c hc
      · rw [processIds_cons_fatal m cmd f id rest e hr
          (Bool.not_eq_true _ ▸ hcond : (f && e.isNotFound) = false)] at hc
        simp at hc
        exact Or.inl ⟨id, hc⟩
    | ok o =>
      cases ht : cmd.tags with
      | true =>
        cases hts : m.ListAttachedTags id with
        | error e =>
          rw [processIds_cons_tags_err m cmd f id rest o e hr ht hts] at hc
          simp at hc
          rcases hc with hc | hc
          · exact Or.inl ⟨id, hc⟩
          · exact Or.inr ⟨id, hc⟩
        | ok ts =>
          rw [processIds_cons_tags_ok m cmd f id rest o ts hr ht hts] at hc
          simp only [List.mem_cons] at hc
          rcases hc with hc | hc | hc
          · exact Or.inl ⟨id, hc⟩
          · exact Or.inr ⟨id, hc⟩
          · exact ih c hc
      | false =>
        rw [processIds_cons_notags m cmd f id rest o hr ht] at hc
        simp only [List.mem_cons] at hc
        rcases hc with hc | hc
        · exact Or.inl ⟨id, hc⟩
        · exact ih c hc

theorem processIds_no_discovery (m : Manager) (cmd : LsFlags) (f : Bool)
    (ids : List String) :
    (processIds m cmd f ids).1.countP Call.isDiscovery = 0 := by
  rw [List.countP_eq_zero]
  intro c hc
  rcases processIds_trace_shape m cmd f ids c hc with ⟨id, rfl⟩ | ⟨id, rfl⟩ <;>
    simp [Call.isDiscovery]

theorem processIds_no_reconcile (m : Manager) (cmd : LsFlags) (f : Bool)
    (ids : List String) :
    (processIds m cmd f ids).1.countP Call.isReconcile = 0 := by
  rw [List.countP_eq_zero]
  intro c hc
  rcases processIds_trace_shape m cmd f ids c hc with ⟨id, rfl⟩ | ⟨id, rfl⟩ <;>
    simp [Call.isReconcile]

/-- With `-T` set, the loop makes exactly one tag lookup per successful
retrieval call in its trace. -/
theorem processIds_tag_count (m : Manager) (cmd : LsFlags) (f : Bool)
    (ht : cmd.tags = true) :
    ∀ ids, (processIds m cmd f ids).1.countP Call.isTagLookup
      = (processIds m cmd f ids).1.countP (Call.isRetrieveOk m) := by
  intro ids
  induction ids with
  | nil => simp [processIds_nil]
  | cons id rest ih =>
    cases hr : m.Retrieve id with
    | error e =>
      by_cases hcond : (f && e.isNotFound) = true
      · obtain ⟨hf, hnf⟩ := Bool.and_eq_true_iff.mp hcond
        subst hf
        cases hall : cmd.all with
        | true =>
          rw [processIds_cons_nf_all m cmd id rest e hr hnf hall]
          simp [List.countP_cons, Call.isTagLookup, Call.isRetrieveOk,
            exceptOk, hr, ih]
        | false =>
          rw [processIds_cons_nf_noall m cmd id rest e hr hnf hall]
          simp [List.countP_cons, Call.isTagLookup, Call.isRetrieveOk,
            exceptOk, hr, ih]
      · rw [processIds_cons_fatal m cmd f id rest e hr
          (Bool.not_eq_true _ ▸ hcond : (f && e.isNotFound) = false)]
        simp [List.countP_cons, Call.isTagLookup, Call.isRetrieveOk,
          exceptOk, hr]
    | ok o =>
      cases hts : m.ListAttachedTags id with
      | error e =>
        rw [processIds_cons_tags_err m cmd f id rest o e hr ht hts]
        simp [List.countP_cons, Call.isTagLookup, Call.isRetrieveOk,
          exceptOk, hr]
      | ok ts =>
        rw [processIds_cons_tags_ok m cmd f id rest o ts hr ht hts]
        simp [List.countP_cons, Call.isTagLookup, Call.isRetrieveOk,
          exceptOk, hr, ih]

/-- With `-T` unset, the loop never makes a tag lookup. -/
theorem processIds_no_tag_lookup (m : Manager) (cmd : LsFlags) (f : Bool)
    (ht : cmd.tags = false) :
    ∀ ids, (processIds m cmd f ids).1.countP Call.isTagLookup = 0 := by
  intro ids
  induction ids with
  | nil => simp [processIds_nil]
  | cons id rest ih =>
    cases hr : m.Retrieve id with
    | error e =>
      by_cases hcond : (f && e.isNotFound) = true
      · obtain ⟨hf, hnf⟩ := Bool.and_eq_true_iff.mp hcond
        subst hf
        cases hall : cmd.all with
        | true =>
          rw [processIds_cons_nf_all m cmd id rest e hr hnf hall]
          simp [List.countP_cons, Call.isTagLookup, ih]
        | false =>
          rw [processIds_cons_nf_noall m cmd id rest e hr hnf hall]
          simp [List.countP_cons, Call.isTagLookup, ih]
      · rw [processIds_cons_fatal m cmd f id rest e hr
          (Bool.not_eq_true _ ▸ hcond : (f && e.isNotFound) = false)]
        simp [List.countP_cons, Call.isTagLookup]
    | ok o =>
      rw [processIds_cons_notags m cmd f id rest o hr ht]
      simp [List.countP_cons, Call.isTagLookup, ih]

/-- A loop that returns the object list successfully retrieved every id when
the not-found filter is off (the explicit-ids path). -/
theorem processIds_false_ok_retrieve (m : Manager) (cmd : LsFlags) :
    ∀ ids objs, (processIds m cmd false ids).2 = Except.ok objs →
      ∀ id ∈ ids, ∃ o, m.Retrieve id = Except.ok o := by
  intro ids
  induction ids with
  | nil => intro objs _ id hid; simp at hid
  | cons i rest ih =>
    intro objs h id hid
    cases hr : m.Retrieve i with
    | error e =>
      rw [processIds_cons_fatal m cmd false i rest e hr (by simp)] at h
      simp at h
    | ok o =>
      rcases List.mem_cons.mp hid with rfl | hmem
      · exact ⟨o, hr⟩
      · cases ht : cmd.tags with
        | true =>
          cases hts : m.ListAttachedTags i with
          | error e =>
            rw [processIds_cons_tags_err m cmd false i rest o e hr ht hts] at h
            simp at h
          | ok ts =>
            rw [processIds_cons_tags_ok m cmd false i rest o ts hr ht hts] at h
            simp only at h
            obtain ⟨tl, htl, _⟩ := (exceptMap_eq_ok _ _ _).mp h
            exact ih tl htl id hmem
        | false =>
          rw [processIds_cons_notags m cmd false i rest o hr ht] at h
          simp only at h
          obtain ⟨tl, htl, _⟩ := (exceptMap_eq_ok _ _ _).mp h
          exact ih tl htl id hmem

/-- Prepending ids the loop runs past without aborting preserves an abort on
the remainder. -/
theorem processIds_append_err (m : Manager) (cmd : LsFlags) (f : Bool)
    (err : GoError) :
    ∀ pre, okThrough m cmd pre → ∀ rest,
      (processIds m cmd f rest).2 = Except.error err →
      (processIds m cmd f (pre ++ rest)).2 = Except.error err := by
  intro pre
  induction pre with
  | nil => intro _ rest hrest; simpa using hrest
  | cons i pre ih =>
    intro hok rest hrest
    obtain ⟨⟨o, ho⟩, htag⟩ := hok i (List.mem_cons_self i pre)
    have hok' : okThrough m cmd pre := fun j hj => hok j (List.mem_cons_of_mem i hj)
    have hrec := ih hok' rest hrest
    cases ht : cmd.tags with
    | true =>
      obtain ⟨ts, hts⟩ := htag ht
      rw [List.cons_append, processIds_cons_tags_ok m cmd f i (pre ++ rest) o ts ho ht hts]
      simp [hrec, exceptMap_err]
    | false =>
      rw [List.cons_append, processIds_cons_notags m cmd f i (pre ++ rest) o ho ht]
      simp [hrec, exceptMap_err]

/-! ### Bridge lemmas for `lsRun` -/

theorem lsRun_no_r (m : Manager) (cmd : LsFlags) (args : List String)
    (hr : cmd.r = false) : lsRun m cmd args = lsRunBody m cmd args := by
  simp [lsRun, hr]

theorem lsRun_r_ok (m : Manager) (cmd : LsFlags) (args : List String)
    (hr : cmd.r = true) (hok : m.ReconcileDatastoreInventory = Except.ok ()) :
    lsRun m cmd args =
      (Call.reconcile :: (lsRunBody m cmd args).1, (lsRunBody m cmd args).2) := by
  simp [lsRun, hr, hok]

theorem lsRun_r_err (m : Manager) (cmd : LsFlags) (args : List String)
    (e : GoError) (hr : cmd.r = true)
    (he : m.ReconcileDatastoreInventory = Except.error e) :
    lsRun m cmd args = ([Call.reconcile], Except.error e) := by
  simp [lsRun, hr, he]

theorem lsRunBody_empty_err (m : Manager) (cmd : LsFlags) (e : GoError)
    (hd : (discover m cmd).2 = Except.error e) :
    lsRunBody m cmd [] = ([(discover m cmd).1], Except.error e) := by
  simp [lsRunBody, hd]

theorem lsRunBody_empty_ok (m : Manager) (cmd : LsFlags)
    (oids : List types.ID) (hd : (discover m cmd).2 = Except.ok oids) :
    lsRunBody m cmd [] =
      ((discover m cmd).1 :: (processIds m cmd true (oids.map types.ID.Id)).1,
        (processIds m cmd true (oids.map types.ID.Id)).2) := by
  simp [lsRunBody, hd]

theorem lsRunBody_nonempty (m : Manager) (cmd : LsFlags) (args : List String)
    (hne : args ≠ []) : lsRunBody m cmd args = processIds m cmd false args := by
  cases args with
  | nil => exact absurd rfl hne
  | cons a l => simp [lsRunBody]

/-- The retrieval loop reads only the `-a` and `-T` flags. -/
theorem processIds_flags_congr (m : Manager) (cmd cmd' : LsFlags) (f : Bool)
    (hall : cmd.all = cmd'.all) (htags : cmd.tags = cmd'.tags) :
    ∀ ids, processIds m cmd f ids = processIds m cmd' f ids := by
  intro ids
  induction ids with
  | nil => rfl
  | cons id rest ih =>
    cases hr : m.Retrieve id with
    | error e =>
      by_cases hcond : (f && e.isNotFound) = true
      · obtain ⟨hf, hnf⟩ := Bool.and_eq_true_iff.mp hcond
        subst hf
        cases hall2 : cmd.all with
        | true =>
          rw [processIds_cons_nf_all m cmd id rest e hr hnf hall2,
            processIds_cons_nf_all m cmd' id rest e hr hnf
              (hall.symm.trans hall2), ih]
        | false =>
          rw [processIds_cons_nf_noall m cmd id rest e hr hnf hall2,
            processIds_cons_nf_noall m cmd' id rest e hr hnf
              (hall.symm.trans hall2), ih]
      · have hcond' : (f && e.isNotFound) = false := Bool.not_eq_true _ ▸ hcond
        rw [processIds_cons_fatal m cmd f id rest e hr hcond',
          processIds_cons_fatal m cmd' f id rest e hr hcond']
    | ok o =>
      cases ht : cmd.tags with
      | true =>
        cases hts : m.ListAttachedTags id with
        | error e =>
          rw [processIds_cons_tags_err m cmd f id rest o e hr ht hts,
            processIds_cons_tags_err m cmd' f id rest o e hr
              (htags.symm.trans ht) hts]
        | ok ts =>
          rw [processIds_cons_tags_ok m cmd f id rest o ts hr ht hts,
            processIds_cons_tags_ok m cmd' f id rest o ts hr
              (htags.symm.trans ht) hts, ih]
      | false =>
        rw [processIds_cons_notags m cmd f id rest o hr ht,
          processIds_cons_notags m cmd' f id rest o hr
            (htags.symm.trans ht), ih]

/-- `lsRun` depends on the flags only through `-R`, `-a`, `-T` and the
discovery call. -/
theorem lsRun_flags_congr (m : Manager) (cmd cmd' : LsFlags)
    (hr : cmd.r = cmd'.r) (hall : cmd.all = cmd'.all)
    (htags : cmd.tags = cmd'.tags) (hd : discover m cmd = discover m cmd')
    (args : List String) : lsRun m cmd args = lsRun m cmd' args := by
  have hbody : lsRunBody m cmd args = lsRunBody m cmd' args := by
    cases args with
    | nil =>
      cases hdr : (discover m cmd).2 with
      | error e =>
        rw [lsRunBody_empty_err m cmd e hdr,
          lsRunBody_empty_err m cmd' e (hd ▸ hdr), hd]
      | ok oids =>
        rw [lsRunBody_empty_ok m cmd oids hdr,
          lsRunBody_empty_ok m cmd' oids (hd ▸ hdr), hd,
          processIds_flags_congr m cmd cmd' true hall htags]
    | cons a l =>
      rw [lsRunBody_nonempty m cmd (a :: l) (by simp),
        lsRunBody_nonempty m cmd' (a :: l) (by simp),
        processIds_flags_congr m cmd cmd' false hall htags]
  cases hrr : cmd.r with
  | false =>
    rw [lsRun_no_r m cmd args hrr, lsRun_no_r m cmd' args (hr.symm.trans hrr),
      hbody]
  | true =>
    cases hrec : m.ReconcileDatastoreInventory with
    | error e =>
      rw [lsRun_r_err m cmd args e hrr hrec,
        lsRun_r_err m cmd' args e (hr.symm.trans hrr) hrec]
    | ok u =>
      cases u
      rw [lsRun_r_ok m cmd args hrr hrec,
        lsRun_r_ok m cmd' args (hr.symm.trans hrr) hrec, hbody]

/-- Classification of the discovery call recorded in the trace. -/
theorem discover_call_class (m : Manager) (cmd : LsFlags) :
    Call.isDiscovery (discover m cmd).1 = true
    ∧ Call.isReconcile (discover m cmd).1 = false
    ∧ Call.isTagLookup (discover m cmd).1 = false
    ∧ Call.isRetrieveOk m (discover m cmd).1 = false := by
  by_cases h : cmd.category = "" <;>
    simp [discover, h, Call.isDiscovery, Call.isReconcile, Call.isTagLookup,
      Call.isRetrieveOk]

theorem lsRunBody_no_reconcile (m : Manager) (cmd : LsFlags)
    (args : List String) :
    (lsRunBody m cmd args).1.countP Call.isReconcile = 0 := by
  cases args with
  | nil =>
    cases hdr : (discover m cmd).2 with
    | error e =>
      rw [lsRunBody_empty_err m cmd e hdr]
      simp [List.countP_cons, (discover_call_class m cmd).2.1]
    | ok oids =>
      rw [lsRunBody_empty_ok m cmd oids hdr]
      simp [List.countP_cons, (discover_call_class m cmd).2.1,
        processIds_no_reconcile]
  | cons a l =>
    rw [lsRunBody_nonempty m cmd (a :: l) (by simp)]
    exact processIds_no_reconcile m cmd false (a :: l)

theorem lsRunBody_tag_count_eq (m : Manager) (cmd : LsFlags)
    (args : List String) (ht : cmd.tags = true) :
    (lsRunBody m cmd args).1.countP Call.isTagLookup
      = (lsRunBody m cmd args).1.countP (Call.isRetrieveOk m) := by
  cases args with
  | nil =>
    cases hdr : (discover m cmd).2 with
    | error e =>
      rw [lsRunBody_empty_err m cmd e hdr]
      simp [List.countP_cons, (discover_call_class m cmd).2.2.1,
        (discover_call_class m cmd).2.2.2]
    | ok oids =>
      rw [lsRunBody_empty_ok m cmd oids hdr]
      simp [List.countP_cons, (discover_call_class m cmd).2.2.1,
        (discover_call_class m cmd).2.2.2,
        processIds_tag_count m cmd true ht (oids.map types.ID.Id)]
  | cons a l =>
    rw [lsRunBody_nonempty m cmd (a :: l) (by simp)]
    exact processIds_tag_count m cmd false ht (a :: l)

theorem lsRunBody_no_tag_lookup (m : Manager) (cmd : LsFlags)
    (args : List String) (ht : cmd.tags = false) :
    (lsRunBody m cmd args).1.countP Call.isTagLookup = 0 := by
  cases args with
  | nil =>
    cases hdr : (discover m cmd).2 with
    | error e =>
      rw [lsRunBody_empty_err m cmd e hdr]
      simp [List.countP_cons, (discover_call_class m cmd).2.2.1]
    | ok oids =>
      rw [lsRunBody_empty_ok m cmd oids hdr]
      simp [List.countP_cons, (discover_call_class m cmd).2.2.1,
        processIds_no_tag_lookup m cmd true ht]
  | cons a l =>
    rw [lsRunBody_nonempty m cmd (a :: l) (by simp)]
    exact processIds_no_tag_lookup m cmd false ht (a :: l)

/-! ### Claim theorems -/

/-- C1: with one or more explicit positional ids, any retrieval failure —
a not-found failure included, whether or not `-a` is set — makes `disk.ls`
return a non-nil error (a successful run means every explicit id retrieved
ok), and when the loop reaches the failing id the error returned is the
retrieval error prefixed with that identifier. -/
theorem C1_explicit_retrieve_failure_fatal (m : Manager) (cmd : LsFlags)
    (args : List String) (hne : args ≠ []) :
    (∀ objs, (lsRun m cmd args).2 = Except.ok objs →
      ∀ id ∈ args, ∃ o, m.Retrieve id = Except.ok o)
    ∧ (∀ pre id post e, args = pre ++ id :: post →
        (cmd.r = true → m.ReconcileDatastoreInventory = Except.ok ()) →
        okThrough m cmd pre → m.Retrieve id = Except.error e →
        (lsRun m cmd args).2 = Except.error (retrieveErr id e)) := by
  constructor
  · intro objs h id hid
    cases hrr : cmd.r with
    | false =>
      rw [lsRun_no_r m cmd args hrr, lsRunBody_nonempty m cmd args hne] at h
      exact processIds_false_ok_retrieve m cmd args objs h id hid
    | true =>
      cases hrec : m.ReconcileDatastoreInventory with
      | error e =>
        rw [lsRun_r_err m cmd args e hrr hrec] at h
        simp at h
      | ok u =>
        cases u
        rw [lsRun_r_ok m cmd args hrr hrec] at h
        simp only at h
        rw [lsRunBody_nonempty m cmd args hne] at h
        exact processIds_false_ok_retrieve m cmd args objs h id hid
  · intro pre id post e hargs hrecok hok hret
    subst hargs
    have hfail : (processIds m cmd false (id :: post)).2
        = Except.error (retrieveErr id e) := by
      rw [processIds_cons_fatal m cmd false id post e hret (by simp)]
    have hpre := processIds_append_err m cmd false (retrieveErr id e) pre hok
      (id :: post) hfail
    cases hrr : cmd.r with
    | false =>
      rw [lsRun_no_r m cmd _ hrr, lsRunBody_nonempty m cmd _ hne]
      exact hpre
    | true =>
      rw [lsRun_r_ok m cmd _ hrr (hrecok hrr)]
      simp only
      rw [lsRunBody_nonempty m cmd _ hne]
      exact hpre

/-- C2: in the discovery path, a not-found retrieval of a discovered id
appends the sentinel placeholder when `-a` is set and is silently skipped
otherwise, the loop continuing with the remaining ids either way; and with
discovery succeeding, `disk.ls` returns exactly what the discovery-path loop
returns over the discovered ids. -/
theorem C2_discovery_not_found_tolerated (m : Manager) (cmd : LsFlags)
    (id : String) (e : GoError) (rest : List String)
    (hret : m.Retrieve id = Except.error e) (hnf : e.isNotFound = true) :
    ((processIds m cmd true (id :: rest)).2 =
        if cmd.all = true then
          Except.map (fun objs => placeholderObj id :: objs)
            (processIds m cmd true rest).2
        else (processIds m cmd true rest).2)
    ∧ ((placeholderObj id).Config.Name = sentinelName)
    ∧ (∀ oids, (cmd.r = true → m.ReconcileDatastoreInventory = Except.ok ()) →
        (discover m cmd).2 = Except.ok oids →
        (lsRun m cmd []).2 = (processIds m cmd true (oids.map types.ID.Id)).2) := by
  refine ⟨?_, rfl, ?_⟩
  · cases hall : cmd.all with
    | true => rw [processIds_cons_nf_all m cmd id rest e hret hnf hall]; simp
    | false => rw [processIds_cons_nf_noall m cmd id rest e hret hnf hall]; simp
  · intro oids hrecok hd
    cases hrr : cmd.r with
    | false => rw [lsRun_no_r m cmd [] hrr, lsRunBody_empty_ok m cmd oids hd]
    | true =>
      rw [lsRun_r_ok m cmd [] hrr (hrecok hrr)]
      simp only
      rw [lsRunBody_empty_ok m cmd oids hd]

/-- C3: with an empty id list, exactly one discovery call appears in the
trace; it is the unfiltered `List` when no category is supplied and the
tag-filtered `ListAttachedObjects(category, tag)` otherwise; its failure
aborts the run with that error, and on success the discovered ids become the
iteration list of the loop. -/
theorem C3_empty_args_single_discovery (m : Manager) (cmd : LsFlags)
    (hrecok : cmd.r = true → m.ReconcileDatastoreInventory = Except.ok ()) :
    ((lsRun m cmd []).1.countP Call.isDiscovery = 1)
    ∧ (∀ e, (discover m cmd).2 = Except.error e →
        (lsRun m cmd []).2 = Except.error e)
    ∧ (∀ oids, (discover m cmd).2 = Except.ok oids →
        lsRun m cmd [] =
          ((if cmd.r then [Call.reconcile] else []) ++ (discover m cmd).1 ::
              (processIds m cmd true (oids.map types.ID.Id)).1,
            (processIds m cmd true (oids.map types.ID.Id)).2))
    ∧ (cmd.category = "" → discover m cmd = (Call.list, m.List))
    ∧ (cmd.category ≠ "" → discover m cmd =
        (Call.listAttachedObjects cmd.category cmd.tag,
          m.ListAttachedObjects cmd.category cmd.tag)) := by
  have hbody1 : (lsRunBody m cmd []).1.countP Call.isDiscovery = 1 := by
    cases hdr : (discover m cmd).2 with
    | error e =>
      rw [lsRunBody_empty_err m cmd e hdr]
      simp [List.countP_cons, (discover_call_class m cmd).1]
    | ok oids =>
      rw [lsRunBody_empty_ok m cmd oids hdr]
      simp [List.countP_cons, (discover_call_class m cmd).1,
        processIds_no_discovery]
  refine ⟨?_, ?_, ?_, ?_, ?_⟩
  · cases hrr : cmd.r with
    | false => rw [lsRun_no_r m cmd [] hrr]; exact hbody1
    | true =>
      rw [lsRun_r_ok m cmd [] hrr (hrecok hrr)]
      simp [List.countP_cons, Call.isDiscovery, hbody1]
  · intro e hd
    cases hrr : cmd.r with
    | false => rw [lsRun_no_r m cmd [] hrr, lsRunBody_empty_err m cmd e hd]
    | true =>
      rw [lsRun_r_ok m cmd [] hrr (hrecok hrr)]
      simp only
      rw [lsRunBody_empty_err m cmd e hd]
  · intro oids hd
    cases hrr : cmd.r with
    | false =>
      rw [lsRun_no_r m cmd [] hrr, lsRunBody_empty_ok m cmd oids hd]
      simp
    | true =>
      rw [lsRun_r_ok m cmd [] hrr (hrecok hrr), lsRunBody_empty_ok m cmd oids hd]
      simp
  · intro h; simp [discover, h]
  · intro h; simp [discover, h]

/-- C4: the reconcile call runs exactly once and first when `-R` is set, its
failure returns that error with no discovery or retrieval performed, and it
never runs when `-R` is unset. -/
theorem C4_reconcile_first_and_once (m : Manager) (cmd : LsFlags)
    (args : List String) :
    (cmd.r = false → (lsRun m cmd args).1.countP Call.isReconcile = 0)
    ∧ (cmd.r = true → (lsRun m cmd args).1.countP Call.isReconcile = 1
        ∧ (lsRun m cmd args).1.head? = some Call.reconcile)
    ∧ (∀ e, cmd.r = true → m.ReconcileDatastoreInventory = Except.error e →
        lsRun m cmd args = ([Call.reconcile], Except.error e)) := by
  refine ⟨?_, ?_, ?_⟩
  · intro hrr
    rw [lsRun_no_r m cmd args hrr]
    exact lsRunBody_no_reconcile m cmd args
  · intro hrr
    cases hrec : m.ReconcileDatastoreInventory with
    | error e =>
      rw [lsRun_r_err m cmd args e hrr hrec]
      simp [List.countP_cons, Call.isReconcile]
    | ok u =>
      cases u
      rw [lsRun_r_ok m cmd args hrr hrec]
      simp [List.countP_cons, Call.isReconcile,
        lsRunBody_no_reconcile m cmd args]
  · intro e hrr hrec
    exact lsRun_r_err m cmd args e hrr hrec

/-- C5: tag lookups happen only under `-T`, exactly one per successful
retrieval call in the trace (never for not-found ids), and a failed tag
lookup aborts the loop with that error once the loop reaches it. -/
theorem C5_tag_lookup_per_retrieved (m : Manager) (cmd : LsFlags)
    (args : List String) :
    (cmd.tags = false → (lsRun m cmd args).1.countP Call.isTagLookup = 0)
    ∧ (cmd.tags = true → (lsRun m cmd args).1.countP Call.isTagLookup
        = (lsRun m cmd args).1.countP (Call.isRetrieveOk m))
    ∧ (∀ f pre id post o e, okThrough m cmd pre →
        m.Retrieve id = Except.ok o → cmd.tags = true →
        m.ListAttachedTags id = Except.error e →
        (processIds m cmd f (pre ++ id :: post)).2 = Except.error e) := by
  refine ⟨?_, ?_, ?_⟩
  · intro ht
    cases hrr : cmd.r with
    | false =>
      rw [lsRun_no_r m cmd args hrr]
      exact lsRunBody_no_tag_lookup m cmd args ht
    | true =>
      cases hrec : m.ReconcileDatastoreInventory with
      | error e =>
        rw [lsRun_r_err m cmd args e hrr hrec]
        simp [List.countP_cons, Call.isTagLookup]
      | ok u =>
        cases u
        rw [lsRun_r_ok m cmd args hrr hrec]
        simp [List.countP_cons, Call.isTagLookup,
          lsRunBody_no_tag_lookup m cmd args ht]
  · intro ht
    cases hrr : cmd.r with
    | false =>
      rw [lsRun_no_r m cmd args hrr]
      exact lsRunBody_tag_count_eq m cmd args ht
    | true =>
      cases hrec : m.ReconcileDatastoreInventory with
      | error e =>
        rw [lsRun_r_err m cmd args e hrr hrec]
        simp [List.countP_cons, Call.isTagLookup, Call.isRetrieveOk]
      | ok u =>
        cases u
        rw [lsRun_r_ok m cmd args hrr hrec]
        simp [List.countP_cons, Call.isTagLookup, Call.isRetrieveOk,
          lsRunBody_tag_count_eq m cmd args ht]
  · intro f pre id post o e hok hret ht hts
    exact processIds_append_err m cmd f e pre hok (id :: post)
      (by rw [processIds_cons_tags_err m cmd f id post o e hret ht hts])

/-- C6: in the tabular output, the backing file path replaces the name only
when `-L` is set and the backing type assertion to the disk-file backing
succeeds; in every other case the configured name is printed unchanged. -/
theorem C6_path_only_for_disk_file_backing (cmd : LsFlags)
    (o : VStorageObject) :
    (cmd.path = false → lsDisplayName cmd o = o.Config.Name)
    ∧ (∀ file, cmd.path = true →
        o.Config.Backing = some (types.BaseConfigInfoBackingInfo.diskFile file) →
        lsDisplayName cmd o = file.FilePath)
    ∧ (cmd.path = true →
        (∀ file, o.Config.Backing
          ≠ some (types.BaseConfigInfoBackingInfo.diskFile file)) →
        lsDisplayName cmd o = o.Config.Name) := by
  refine ⟨?_, ?_, ?_⟩
  · intro hp; simp [lsDisplayName, hp]
  · intro file hp hb; simp [lsDisplayName, hp, hb]
  · intro hp hb
    cases hback : o.Config.Backing with
    | none => simp [lsDisplayName, hp, hback]
    | some b =>
      cases b with
      | diskFile file => exact absurd hback (hb file)
      | otherBacking => simp [lsDisplayName, hp, hback]

/-- C7: a successful run's result is exactly the requested (or discovered)
id sequence, in order, restricted to the kept ids (all of them on the
explicit path; not-found ids skipped or replaced by their placeholder on the
discovery path) and mapped to the entry each id contributes — so no entry
comes from an id outside the sequence and no id contributes twice. -/
theorem C7_result_matches_id_sequence (m : Manager) (cmd : LsFlags)
    (args : List String) (objs : List VStorageObject) :
    (args ≠ [] → (lsRun m cmd args).2 = Except.ok objs →
      objs = (args.filter (keeps m cmd false)).map (objOf m cmd))
    ∧ (∀ oids, args = [] → (discover m cmd).2 = Except.ok oids →
        (lsRun m cmd args).2 = Except.ok objs →
        objs = ((oids.map types.ID.Id).filter (keeps m cmd true)).map
          (objOf m cmd)) := by
  constructor
  · intro hne h
    cases hrr : cmd.r with
    | false =>
      rw [lsRun_no_r m cmd args hrr, lsRunBody_nonempty m cmd args hne] at h
      exact processIds_ok_eq m cmd false args objs h
    | true =>
      cases hrec : m.ReconcileDatastoreInventory with
      | error e =>
        rw [lsRun_r_err m cmd args e hrr hrec] at h
        simp at h
      | ok u =>
        cases u
        rw [lsRun_r_ok m cmd args hrr hrec] at h
        simp only at h
        rw [lsRunBody_nonempty m cmd args hne] at h
        exact processIds_ok_eq m cmd false args objs h
  · intro oids hargs hd h
    subst hargs
    cases hrr : cmd.r with
    | false =>
      rw [lsRun_no_r m cmd [] hrr, lsRunBody_empty_ok m cmd oids hd] at h
      exact processIds_ok_eq m cmd true (oids.map types.ID.Id) objs h
    | true =>
      cases hrec : m.ReconcileDatastoreInventory with
      | error e =>
        rw [lsRun_r_err m cmd [] e hrr hrec] at h
        simp at h
      | ok u =>
        cases u
        rw [lsRun_r_ok m cmd [] hrr hrec] at h
        simp only at h
        rw [lsRunBody_empty_ok m cmd oids hd] at h
        exact processIds_ok_eq m cmd true (oids.map types.ID.Id) objs h

/-- C8: `host.account.remove` issues exactly one `Remove` call with the bound
id and returns its result unchanged; when manager acquisition fails, that
error is returned and no `Remove` call is made. -/
theorem C8_remove_single_call (acq : Except GoError HostAccountManager)
    (id : String) :
    (∀ m, acq = Except.ok m →
      removeRun acq id = ([AccountCall.remove id], m.Remove id))
    ∧ (∀ e, acq = Except.error e →
      removeRun acq id = ([], Except.error e)) := by
  constructor
  · intro m h; subst h; rfl
  · intro e h; subst h; rfl

/-- C9: discovery is tag-filtered exactly when `-c` is non-empty — with `-c`
empty the unfiltered `List` is used and the `-t` value is ignored — and with
explicit ids, `-c` and `-t` have no effect on the run at all. -/
theorem C9_category_selects_discovery (m : Manager) (cmd : LsFlags)
    (args : List String) :
    (cmd.category = "" → ∀ t, lsRun m cmd [] = lsRun m { cmd with tag := t } [])
    ∧ (args ≠ [] → ∀ c t,
        lsRun m cmd args = lsRun m { cmd with category := c, tag := t } args)
    ∧ (cmd.category = "" → discover m cmd = (Call.list, m.List)) := by
  refine ⟨?_, ?_, ?_⟩
  · intro hcat t
    exact lsRun_flags_congr m cmd { cmd with tag := t } rfl rfl rfl
      (by simp [discover, hcat]) []
  · intro hne c t
    have hb : lsRunBody m cmd args
        = processIds m { cmd with category := c, tag := t } false args := by
      rw [lsRunBody_nonempty m cmd args hne]
      exact processIds_flags_congr m cmd { cmd with category := c, tag := t }
        false rfl rfl args
    by_cases hrr : cmd.r = true
    · cases hrec : m.ReconcileDatastoreInventory with
      | error e =>
        rw [lsRun_r_err m cmd args e hrr hrec,
          lsRun_r_err m { cmd with category := c, tag := t } args e hrr hrec]
      | ok u =>
        cases u
        rw [lsRun_r_ok m cmd args hrr hrec,
          lsRun_r_ok m { cmd with category := c, tag := t } args hrr hrec,
          lsRunBody_nonempty m { cmd with category := c, tag := t } args hne,
          ← hb]
    · have hrr' : cmd.r = false := Bool.not_eq_true _ ▸ hrr
      rw [lsRun_no_r m cmd args hrr',
        lsRun_no_r m { cmd with category := c, tag := t } args hrr',
        lsRunBody_nonempty m { cmd with category := c, tag := t } args hne,
        ← hb]
  · intro hcat; simp [discover, hcat]

/-- C10: the placeholder entry for a not-found discovered id carries that id
in `Config.Id.Id`, the sentinel string as `Config.Name`, and an empty tag
list; and the loop step for such an id performs only the `Retrieve` call —
no tag lookup — before continuing, even when `-T` is set. -/
theorem C10_placeholder_shape (m : Manager) (cmd : LsFlags) (id : String)
    (e : GoError) (rest : List String)
    (hret : m.Retrieve id = Except.error e) (hnf : e.isNotFound = true)
    (hall : cmd.all = true) :
    ((placeholderObj id).Config.Id.Id = id)
    ∧ ((placeholderObj id).Config.Name = sentinelName)
    ∧ ((placeholderObj id).Tags = [])
    ∧ ((processIds m cmd true (id :: rest)).1
        = Call.retrieve id :: (processIds m cmd true rest).1)
    ∧ ((processIds m cmd true (id :: rest)).2
        = Except.map (fun objs => placeholderObj id :: objs)
            (processIds m cmd true rest).2) := by
  refine ⟨rfl, rfl, rfl, ?_, ?_⟩ <;>
    rw [processIds_cons_nf_all m cmd id rest e hret hnf hall]

/-! ### Concrete instances used by the witnesses -/

/-- A concrete retrieved disk object with a disk-file backing. -/
def objA : types.VStorageObject :=
  { Config :=
      { Id := { Id := "a" }
        Name := "disk-a"
        CreateTime := 5
        Backing := some (types.BaseConfigInfoBackingInfo.diskFile
          { FilePath := "[datastore1] a/a.vmdk" })
        CapacityInMB := 10 } }

/-- A concrete attached tag. -/
def tagA : types.VslmTagEntry :=
  { ParentCategoryName := "k8s-region", TagName := "us-west-2" }

/-- A concrete manager: disk `a` exists, everything else is not found. -/
def mW : Manager :=
  { ReconcileDatastoreInventory := Except.ok ()
    ListAttachedObjects := fun _ _ => Except.ok [{ Id := "a" }]
    Retrieve := fun id =>
      if id = "a" then Except.ok objA
      else Except.error (GoError.notFound "gone")
    ListAttachedTags := fun _ => Except.ok [tagA]
    List := Except.ok [{ Id := "a" }, { Id := "b" }] }

/-- Default flags: `-a` set, everything else off. -/
def cmdW : LsFlags :=
  { all := true, long := false, path := false, r := false
    category := "", tag := "", tags := false }

/-- `mW` with a failing reconcile operation. -/
def mWreconcileFail : Manager :=
  { mW with ReconcileDatastoreInventory :=
      Except.error (GoError.other "reconcile failed") }

/-- `mW` with a failing tag lookup. -/
def mWtagFail : Manager :=
  { mW with ListAttachedTags :=
      fun _ => Except.error (GoError.other "tag lookup failed") }

/-- `cmdW` with `-R` set. -/
def cmdWr : LsFlags := { cmdW with r := true }

/-- `cmdW` with `-T` set. -/
def cmdWtags : LsFlags := { cmdW with tags := true }

/-- `cmdW` with `-L` set. -/
def cmdWpath : LsFlags := { cmdW with path := true }

/-- `objA` wrapped as a result entry without tags. -/
def objAV : VStorageObject := { toVStorageObject := objA, Tags := [] }

/-- A concrete host account manager whose removals succeed. -/
def hamW : HostAccountManager := { Remove := fun _ => Except.ok () }

/-! ### Witnesses -/

/-- Witness for C1: requesting the missing disk `b` explicitly (with `-a`
set) returns the prefixed retrieval error. -/
theorem C1_witness :
    (lsRun mW cmdW ["b"]).2
      = Except.error (retrieveErr "b" (GoError.notFound "gone")) :=
  (C1_explicit_retrieve_failure_fatal mW cmdW ["b"] (by simp)).2 [] "b" []
    (GoError.notFound "gone") rfl (fun _ => rfl)
    (fun j hj => absurd hj (List.not_mem_nil j)) rfl

/-- Witness for C2: the missing discovered disk `b` becomes the placeholder
when `-a` is set. -/
theorem C2_witness :
    (processIds mW cmdW true ["b"]).2 = Except.ok [placeholderObj "b"] := by
  rw [(C2_discovery_not_found_tolerated mW cmdW "b" (GoError.notFound "gone")
    [] rfl rfl).1]
  rfl

/-- Witness for C3: a run with no ids makes exactly one discovery call. -/
theorem C3_witness :
    (lsRun mW cmdW []).1.countP Call.isDiscovery = 1 :=
  (C3_empty_args_single_discovery mW cmdW (fun _ => rfl)).1

/-- Witness for C4: a failing reconcile aborts before any other call. -/
theorem C4_witness :
    lsRun mWreconcileFail cmdWr []
      = ([Call.reconcile], Except.error (GoError.other "reconcile failed")) :=
  (C4_reconcile_first_and_once mWreconcileFail cmdWr []).2.2
    (GoError.other "reconcile failed") rfl rfl

/-- Witness for C5: a failing tag lookup on the retrieved disk `a` aborts the
loop with that error. -/
theorem C5_witness :
    (processIds mWtagFail cmdWtags false ["a"]).2
      = Except.error (GoError.other "tag lookup failed") :=
  (C5_tag_lookup_per_retrieved mWtagFail cmdWtags ["a"]).2.2 false [] "a" []
    objA (GoError.other "tag lookup failed")
    (fun j hj => absurd hj (List.not_mem_nil j)) rfl rfl rfl

/-- Witness for C6: with `-L` set, the disk-file-backed object prints its
backing path. -/
theorem C6_witness :
    lsDisplayName cmdWpath objAV = "[datastore1] a/a.vmdk" :=
  (C6_path_only_for_disk_file_backing cmdWpath objAV).2.1
    { FilePath := "[datastore1] a/a.vmdk" } rfl rfl

/-- Witness for C7: the successful discovery run over `[a, b]` yields the
filtered, mapped id sequence. -/
theorem C7_witness :
    ([objAV, placeholderObj "b"] : List VStorageObject)
      = ((([{ Id := "a" }, { Id := "b" }] : List types.ID).map
          types.ID.Id).filter (keeps mW cmdW true)).map (objOf mW cmdW) :=
  (C7_result_matches_id_sequence mW cmdW [] [objAV, placeholderObj "b"]).2
    [{ Id := "a" }, { Id := "b" }] rfl rfl rfl

/-- Witness for C8: a successful removal of account `u1`. -/
theorem C8_witness :
    removeRun (Except.ok hamW) "u1"
      = ([AccountCall.remove "u1"], Except.ok ()) :=
  (C8_remove_single_call (Except.ok hamW) "u1").1 hamW rfl

/-- Witness for C9: with no category, changing the `-t` value does not change
the run. -/
theorem C9_witness :
    lsRun mW cmdW [] = lsRun mW { cmdW with tag := "x" } [] :=
  (C9_category_selects_discovery mW cmdW []).1 rfl "x"

/-- Witness for C10: the loop step for the missing discovered disk `b` makes
only the retrieve call. -/
theorem C10_witness :
    (processIds mW cmdW true ["b"]).1
      = Call.retrieve "b" :: (processIds mW cmdW true []).1 :=
  (C10_placeholder_shape mW cmdW "b" (GoError.notFound "gone") []
    rfl rfl rfl).2.2.2.1
